import Mathlib

/-!
Shallow embedding of the heuristic resume-text parser (`parseService`) of this
repository.  The JavaScript source keeps all text as UTF-16 strings; here a
string is modelled as a Lean `String` and character-level work is done on
`String.data : List Char`.  JavaScript regular expressions are embedded as
hand-rolled scanning functions with the same leftmost-match / greedy-with-
backtracking semantics, specialised to the fixed patterns of the source.
Mutation of the single `resumeData` object is modelled by functions returning
an updated record.
-/

set_option maxRecDepth 10000

/-- Whitespace as matched by the source's `\s` and `trim()` (ASCII forms). -/
def isWsChar (c : Char) : Bool :=
  c == ' ' || c == '\t' || c == '\n' || c == '\r' || c == '\x0b' || c == '\x0c'

/-- A `\w` word character: `[A-Za-z0-9_]`. -/
def isWordChar (c : Char) : Bool :=
  c.isAlphanum || c == '_'

/-- JavaScript `String.prototype.trim` on a character list. -/
def trimChars (l : List Char) : List Char :=
  ((l.dropWhile isWsChar).reverse.dropWhile isWsChar).reverse

/-- JavaScript `String.prototype.trim`. -/
def trimStr (s : String) : String :=
  ⟨trimChars s.data⟩

/-- JavaScript `String.prototype.toLowerCase` (ASCII range, as used here). -/
def jsToLower (s : String) : String :=
  ⟨s.data.map Char.toLower⟩

/-- JavaScript `String.prototype.includes pat` : substring containment. -/
def containsSubstr (s : String) (pat : String) : Bool :=
  decide (pat.data <:+: s.data)

/-- JavaScript `String.prototype.split(sep)` for a one-character separator. -/
def splitOnChar (c : Char) (s : String) : List String :=
  (s.data.splitOn c).map (fun l => (⟨l⟩ : String))

/-- JavaScript `Array.prototype.join(' ')`. -/
def joinSpace (ls : List String) : String :=
  ⟨[' '].intercalate (ls.map String.data)⟩

/-- Word boundary `\b` between an optional previous and next character. -/
def boundaryB (prev next : Option Char) : Bool :=
  (match prev with | some c => isWordChar c | none => false) !=
  (match next with | some c => isWordChar c | none => false)

/-! ### Embedding of `emailRegex = /\b[A-Za-z0-9._%+-]+@[A-Za-z0-9.-]+\.[A-Z|a-z]{2,}\b/` -/

def isLocalChar (c : Char) : Bool :=
  c.isAlphanum || c == '.' || c == '_' || c == '%' || c == '+' || c == '-'

def isDomainChar (c : Char) : Bool :=
  c.isAlphanum || c == '.' || c == '-'

/-- The character class `[A-Z|a-z]` of the source (letters and `'|'`). -/
def isTldChar (c : Char) : Bool :=
  c.isAlpha || c == '|'

/-- Greedy `[A-Z|a-z]{2,}\b`, backtracking from the maximal run down to 2
characters; `revTaken` holds the still-kept run reversed, `given` the
characters already given back (in order), `rest` the input after the run. -/
def emailTldBT (revTaken given rest : List Char) : Option (List Char) :=
  (if 2 ≤ revTaken.length &&
      boundaryB revTaken.head? ((given ++ rest).head?) then
     some revTaken.reverse
   else none) <|>
  (match revTaken with
   | [] => none
   | c :: rr => emailTldBT rr (c :: given) rest)

/-- Greedy `[A-Za-z0-9.-]+` with backtracking, then `\.` and the TLD part.
Returns the text matched after the `@`. -/
def emailDomainBT (revTaken given rest : List Char) : Option (List Char) :=
  (if revTaken.isEmpty then none
   else
     match given ++ rest with
     | dot :: r4 =>
       if dot == '.' then
         match emailTldBT (r4.takeWhile isTldChar).reverse [] (r4.dropWhile isTldChar) with
         | some tld => some (revTaken.reverse ++ '.' :: tld)
         | none => none
       else none
     | [] => none) <|>
  (match revTaken with
   | [] => none
   | c :: rr => emailDomainBT rr (c :: given) rest)

/-- Try the email pattern at the current position (word boundary checked by
the caller).  Returns the whole matched text. -/
def emailMatchAt (l : List Char) : Option (List Char) :=
  let run1 := l.takeWhile isLocalChar
  let r1 := l.dropWhile isLocalChar
  if run1.isEmpty then none
  else
    match r1 with
    | c :: r2 =>
      if c == '@' then
        match emailDomainBT (r2.takeWhile isDomainChar).reverse [] (r2.dropWhile isDomainChar) with
        | some dt => some (run1 ++ '@' :: dt)
        | none => none
      else none
    | [] => none

/-- Leftmost scan for the email pattern, tracking the previous character for
the leading `\b`. -/
def emailScan (prev : Option Char) (l : List Char) : Option (List Char) :=
  match l with
  | [] => none
  | c :: rest =>
    (if boundaryB prev (some c) then emailMatchAt (c :: rest) else none) <|>
    emailScan (some c) rest

/-- `line.match(emailRegex)` : first match, or `none`. -/
def emailMatch (line : String) : Option String :=
  (emailScan none line.data).map (fun cs => (⟨cs⟩ : String))

/-! ### Embedding of
`phoneRegex = /(\+\d{1,3}[-.\s]?)?\(?\d{3}\)?[-.\s]?\d{3}[-.\s]?\d{4}/` -/

/-- The separator class `[-.\s]`. -/
def isSepChar (c : Char) : Bool :=
  c == '-' || c == '.' || isWsChar c

/-- Exactly `n` digits, then the continuation. -/
def pDigits : Nat → (List Char → Option (List Char)) → List Char → Option (List Char)
  | 0, k, l => k l
  | n + 1, k, l =>
    match l with
    | c :: r => if c.isDigit then pDigits n k r else none
    | [] => none

/-- Greedy optional single character of class `p`, with backtracking into the
continuation. -/
def pOptChar (p : Char → Bool) (k : List Char → Option (List Char)) (l : List Char) :
    Option (List Char) :=
  match l with
  | c :: r => if p c then (k r).orElse (fun _ => k l) else k l
  | [] => k l

/-- The phone pattern anchored at the current position; returns the input
remaining after the match. -/
def matchPhoneAt (l : List Char) : Option (List Char) :=
  let core : List Char → Option (List Char) := fun l1 =>
    pOptChar (· == '(')
      (pDigits 3
        (pOptChar (· == ')')
          (pOptChar isSepChar
            (pDigits 3
              (pOptChar isSepChar
                (pDigits 4 some)))))) l1
  let plusGroup : List Char → Option (List Char) := fun l1 =>
    match l1 with
    | c :: r =>
      if c == '+' then
        (pDigits 3 (pOptChar isSepChar core) r) <|>
        (pDigits 2 (pOptChar isSepChar core) r) <|>
        (pDigits 1 (pOptChar isSepChar core) r)
      else none
    | [] => none
  (plusGroup l) <|> core l

/-- Leftmost scan for the phone pattern; returns the matched text. -/
def phoneScan (l : List Char) : Option (List Char) :=
  match matchPhoneAt l with
  | some rem => some (l.take (l.length - rem.length))
  | none =>
    match l with
    | [] => none
    | _ :: r => phoneScan r

/-- `line.match(phoneRegex)` : first match, or `none`. -/
def phoneMatch (line : String) : Option String :=
  (phoneScan line.data).map (fun cs => (⟨cs⟩ : String))

/-! ### Embedding of
`linkedinRegex = /(linkedin\.com\/in\/[\w-]+|linkedin\.com\/pub\/[\w-]+)/i` -/

/-- Case-insensitive literal prefix test; returns the input after the prefix. -/
def stripCIPat (l pat : List Char) : Option (List Char) :=
  match pat, l with
  | [], _ => some l
  | _ :: _, [] => none
  | p :: ps, c :: cs =>
    if c.toLower == p.toLower then stripCIPat cs ps else none

/-- One alternative `linkedin.com/xxx/[\w-]+` at the current position. -/
def linkedinAltAt (l pat : List Char) : Option (List Char) :=
  match stripCIPat l pat with
  | some rest =>
    let run := rest.takeWhile (fun c => isWordChar c || c == '-')
    if run.isEmpty then none else some (l.take (pat.length + run.length))
  | none => none

/-- Leftmost scan, `in` alternative preferred over `pub` at each position. -/
def linkedinScan (l : List Char) : Option (List Char) :=
  ((linkedinAltAt l "linkedin.com/in/".data) <|>
   (linkedinAltAt l "linkedin.com/pub/".data)) <|>
  (match l with
   | [] => none
   | _ :: r => linkedinScan r)

/-- `line.match(linkedinRegex)` : first match, or `none`. -/
def linkedinMatch (line : String) : Option String :=
  (linkedinScan line.data).map (fun cs => (⟨cs⟩ : String))

/-! ### Location-line tests: `/\b\w+,\s*\w+\b/`, `/\b\w+,\s*\w{2}\b/`,
`/\b\d{5}(-\d{4})?\b/` -/

/-- Is the next character (if any) a non-word character (i.e. a `\b` holds
after a word character)? -/
def nextNonWord (l : List Char) : Bool :=
  match l with
  | c :: _ => !isWordChar c
  | [] => true

/-- `\w+,\s*\w+\b` anchored at the current position. -/
def cityStateAt (l : List Char) : Bool :=
  let run := l.takeWhile isWordChar
  let r1 := l.dropWhile isWordChar
  !run.isEmpty &&
  (match r1 with
   | c :: r2 =>
     c == ',' &&
     (match r2.dropWhile isWsChar with
      | d :: _ => isWordChar d
      | [] => false)
   | [] => false)

/-- `\w+,\s*\w{2}\b` anchored at the current position. -/
def citySTAt (l : List Char) : Bool :=
  let run := l.takeWhile isWordChar
  let r1 := l.dropWhile isWordChar
  !run.isEmpty &&
  (match r1 with
   | c :: r2 =>
     c == ',' &&
     (match r2.dropWhile isWsChar with
      | d :: e :: r4 => isWordChar d && isWordChar e && nextNonWord r4
      | _ => false)
   | [] => false)

/-- `\d{5}(-\d{4})?\b` anchored at the current position. -/
def zipAt (l : List Char) : Bool :=
  match l with
  | a :: b :: c :: d :: e :: r =>
    a.isDigit && b.isDigit && c.isDigit && d.isDigit && e.isDigit &&
    ((match r with
      | f :: g :: h :: i :: j :: r2 =>
        f == '-' && g.isDigit && h.isDigit && i.isDigit && j.isDigit && nextNonWord r2
      | _ => false) ||
     nextNonWord r)
  | _ => false

/-- Scan all positions for a pattern that begins with a `\b`. -/
def scanB (m : List Char → Bool) (prev : Option Char) (l : List Char) : Bool :=
  match l with
  | [] => false
  | c :: rest =>
    (boundaryB prev (some c) && m (c :: rest)) || scanB m (some c) rest

/-- `isLocationLine` of the source: any of the three location patterns tests
true. -/
def isLocationLine (line : String) : Bool :=
  scanB cityStateAt none line.data ||
  scanB citySTAt none line.data ||
  scanB zipAt none line.data

/-! ### Date-range tests:
`/\d{4}\s*-\s*\d{4}/`, `/\d{1,2}\/\d{4}\s*-\s*\d{1,2}\/\d{4}/`,
`/\w+\s+\d{4}\s*-\s*\w+\s+\d{4}/`, `/present|current/i` -/

/-- `\d{4}\s*-\s*\d{4}` anchored at the current position. -/
def matchYearRangeAt (l : List Char) : Bool :=
  match l with
  | a :: b :: c :: d :: r =>
    a.isDigit && b.isDigit && c.isDigit && d.isDigit &&
    (match r.dropWhile isWsChar with
     | m :: r2 =>
       m == '-' &&
       (match r2.dropWhile isWsChar with
        | e :: f :: g :: h :: _ => e.isDigit && f.isDigit && g.isDigit && h.isDigit
        | _ => false)
     | [] => false)
  | _ => false

/-- `/\d{4}` then `\s*` already dropped: helper `\d{1,2}\/\d{4}` (greedy,
two digits preferred).  Returns the input remaining after the half. -/
def slashTail (s : List Char) : Option (List Char) :=
  match s with
  | c0 :: a :: b :: c :: d :: r =>
    if c0 == '/' && a.isDigit && b.isDigit && c.isDigit && d.isDigit then some r else none
  | _ => none

def halfSlash (s : List Char) : Option (List Char) :=
  match s with
  | d1 :: d2 :: rest =>
    if d1.isDigit then
      (if d2.isDigit then slashTail rest else none) <|> slashTail (d2 :: rest)
    else none
  | _ => none

/-- `\d{1,2}\/\d{4}\s*-\s*\d{1,2}\/\d{4}` anchored at the current position. -/
def matchSlashRangeAt (s : List Char) : Bool :=
  match halfSlash s with
  | some r =>
    (match r.dropWhile isWsChar with
     | m :: r2 =>
       m == '-' &&
       (match halfSlash (r2.dropWhile isWsChar) with
        | some _ => true
        | none => false)
     | [] => false)
  | none => false

/-- `\d{4}\s*-\s*\w+\s+\d{4}`: the tail of the word-range pattern. -/
def matchWordTail (r2 : List Char) : Bool :=
  match r2 with
  | a :: b :: c :: d :: r3 =>
    a.isDigit && b.isDigit && c.isDigit && d.isDigit &&
    (match r3.dropWhile isWsChar with
     | m :: r5 =>
       m == '-' &&
       (let r6 := r5.dropWhile isWsChar
        let run2 := r6.takeWhile isWordChar
        let r7 := r6.dropWhile isWordChar
        let ws2 := r7.takeWhile isWsChar
        let r8 := r7.dropWhile isWsChar
        !run2.isEmpty && !ws2.isEmpty &&
        (match r8 with
         | e :: f :: g :: h :: _ => e.isDigit && f.isDigit && g.isDigit && h.isDigit
         | _ => false))
     | [] => false)
  | _ => false

/-- `\w+\s+\d{4}\s*-\s*\w+\s+\d{4}` anchored at the current position. -/
def matchWordRangeAt (s : List Char) : Bool :=
  let run := s.takeWhile isWordChar
  let r1 := s.dropWhile isWordChar
  let wsr := r1.takeWhile isWsChar
  let r2 := r1.dropWhile isWsChar
  !run.isEmpty && !wsr.isEmpty && matchWordTail r2

/-- `.test` scanning over every start position (end position included). -/
def scanTest (m : List Char → Bool) (l : List Char) : Bool :=
  match l with
  | [] => m []
  | c :: rest => m (c :: rest) || scanTest m rest

/-- `isDateRange` of the source. -/
def isDateRange (line : String) : Bool :=
  scanTest matchYearRangeAt line.data ||
  scanTest matchSlashRangeAt line.data ||
  scanTest matchWordRangeAt line.data ||
  decide ("present".data <:+: line.data.map Char.toLower) ||
  decide ("current".data <:+: line.data.map Char.toLower)

/-! ### Year extraction: `/\b(19|20)\d{2}\b/` -/

def yearAt (l : List Char) : Option (List Char) :=
  match l with
  | a :: b :: c :: d :: r =>
    if ((a == '1' && b == '9') || (a == '2' && b == '0')) &&
       c.isDigit && d.isDigit && nextNonWord r then
      some [a, b, c, d]
    else none
  | _ => none

def yearScan (prev : Option Char) (l : List Char) : Option (List Char) :=
  match l with
  | [] => none
  | c :: rest =>
    (if boundaryB prev (some c) then yearAt (c :: rest) else none) <|>
    yearScan (some c) rest

/-- `extractYear` of the source. -/
def extractYear (line : String) : String :=
  match yearScan none line.data with
  | some cs => (⟨cs⟩ : String)
  | none => ""

/-! ### Line-classifier predicates -/

/-- `isRoleLine` of the source. -/
def isRoleLine (line : String) : Bool :=
  ["developer", "engineer", "manager", "analyst", "designer", "consultant",
   "specialist"].any (fun kw => containsSubstr (jsToLower line) kw)

/-- `isJobTitle` of the source: length in (5,100) and `/^[A-Z]/`. -/
def isJobTitle (line : String) : Bool :=
  decide (line.length > 5) && decide (line.length < 100) &&
  (match line.data with
   | c :: _ => 'A' ≤ c && c ≤ 'Z'
   | [] => false)

/-- `isCompanyName` of the source. -/
def isCompanyName (line : String) : Bool :=
  decide (line.length > 2) && decide (line.length < 100)

/-- `isLocation` of the source. -/
def isLocation (line : String) : Bool :=
  decide (line.length > 3) && decide (line.length < 50) &&
  line.data.any (fun c => c.isAlpha)

/-- `isDegree` of the source. -/
def isDegree (line : String) : Bool :=
  ["bachelor", "master", "phd", "doctorate", "associate", "diploma",
   "certificate"].any (fun kw => containsSubstr (jsToLower line) kw)

/-- `isInstitution` of the source: a keyword, or the generic length fallback. -/
def isInstitution (line : String) : Bool :=
  (["university", "college", "institute", "school"].any
    (fun kw => containsSubstr (jsToLower line) kw)) ||
  (decide (line.length > 5) && decide (line.length < 100))

/-- `isProjectTitle` of the source (same shape as `isJobTitle`). -/
def isProjectTitle (line : String) : Bool :=
  decide (line.length > 5) && decide (line.length < 100) &&
  (match line.data with
   | c :: _ => 'A' ≤ c && c ≤ 'Z'
   | [] => false)

/-- `extractAchievementTitle`: first three space-separated words. -/
def extractAchievementTitle (line : String) : String :=
  joinSpace ((splitOnChar ' ' line).take 3)

/-! ### The structured resume record -/

structure ExperienceEntry where
  title : String
  companyName : String
  date : String
  companyLocation : String
  accomplishment : List String
deriving DecidableEq, Repr

structure EducationEntry where
  degree : String
  institution : String
  duration : String
  location : String
deriving DecidableEq, Repr

structure AchievementEntry where
  keyAchievements : String
  describe : String
deriving DecidableEq, Repr

structure ProjectEntry where
  title : String
  description : String
  duration : String
deriving DecidableEq, Repr

structure CertificationEntry where
  title : String
  issuedBy : String
  year : String
deriving DecidableEq, Repr

structure CourseEntry where
  title : String
  description : String
deriving DecidableEq, Repr

structure ResumeRecord where
  name : String
  role : String
  phone : String
  email : String
  linkedin : String
  location : String
  summary : String
  experience : List ExperienceEntry
  education : List EducationEntry
  achievements : List AchievementEntry
  skills : List String
  languages : List String
  projects : List ProjectEntry
  courses : List CourseEntry
  certifications : List CertificationEntry
deriving DecidableEq, Repr

/-- The freshly initialised `resumeData` object of
`parseTextToStructuredData`. -/
def initResume : ResumeRecord :=
  ⟨"", "", "", "", "", "", "", [], [], [], [], [], [], [], []⟩

/-! ### Section-specific entry parsers -/

/-- A fresh experience accumulator started from a job-title line. -/
def expFresh (line : String) : ExperienceEntry :=
  ⟨line, "", "", "", []⟩

/-- The non-title-line routing of `parseExperience`
(`isCompanyName → isDateRange → isLocation → length > 10` priority). -/
def expUpdate (e : ExperienceEntry) (line : String) : ExperienceEntry :=
  if isCompanyName line then { e with companyName := line }
  else if isDateRange line then { e with date := line }
  else if isLocation line then { e with companyLocation := line }
  else if decide (line.length > 10) then
    { e with accomplishment := e.accomplishment ++ [line] }
  else e

/-- One loop iteration of `parseExperience`. -/
def expStep (st : List ExperienceEntry × Option ExperienceEntry) (line : String) :
    List ExperienceEntry × Option ExperienceEntry :=
  if isJobTitle line then
    match st.2 with
    | some e => (st.1 ++ [e], some (expFresh line))
    | none => (st.1, some (expFresh line))
  else
    match st.2 with
    | some e => (st.1, some (expUpdate e line))
    | none => st

/-- `parseExperience` of the source. -/
def parseExperience (content : List String) : List ExperienceEntry :=
  let st := content.foldl expStep ([], none)
  match st.2 with
  | some e => st.1 ++ [e]
  | none => st.1

/-- The non-degree-line routing of `parseEducation`
(`isInstitution → isDateRange → isLocation` priority, otherwise dropped). -/
def eduUpdate (e : EducationEntry) (line : String) : EducationEntry :=
  if isInstitution line then { e with institution := line }
  else if isDateRange line then { e with duration := line }
  else if isLocation line then { e with location := line }
  else e

def eduStep (st : List EducationEntry × Option EducationEntry) (line : String) :
    List EducationEntry × Option EducationEntry :=
  if isDegree line then
    match st.2 with
    | some e => (st.1 ++ [e], some ⟨line, "", "", ""⟩)
    | none => (st.1, some ⟨line, "", "", ""⟩)
  else
    match st.2 with
    | some e => (st.1, some (eduUpdate e line))
    | none => st

/-- `parseEducation` of the source. -/
def parseEducation (content : List String) : List EducationEntry :=
  let st := content.foldl eduStep ([], none)
  match st.2 with
  | some e => st.1 ++ [e]
  | none => st.1

/-- `parseSkills` of the source: join with spaces, split repeatedly on the
separator list, keep trimmed tokens with length in (1,50). -/
def parseSkills (content : List String) : List String :=
  let text := joinSpace content
  let seps : List Char := [',', '•', '·', '|', '\n', ';']
  let items := seps.foldl
    (fun acc sep => acc.flatMap (fun it => splitOnChar sep it)) [text]
  items.foldl
    (fun acc s =>
      let c := trimStr s
      if decide (c.length > 1) && decide (c.length < 50) then acc ++ [c] else acc) []

/-- `parseAchievements` of the source. -/
def parseAchievements (content : List String) : List AchievementEntry :=
  content.foldl
    (fun acc line =>
      if decide (line.length > 10) then
        acc ++ [⟨extractAchievementTitle line, line⟩]
      else acc) []

/-- The non-title-line routing of `parseProjects`. -/
def projUpdate (p : ProjectEntry) (line : String) : ProjectEntry :=
  if isDateRange line then { p with duration := line }
  else if decide (line.length > 10) then
    { p with description :=
        p.description ++ (if p.description == "" then "" else " ") ++ line }
  else p

def projStep (st : List ProjectEntry × Option ProjectEntry) (line : String) :
    List ProjectEntry × Option ProjectEntry :=
  if isProjectTitle line then
    match st.2 with
    | some p => (st.1 ++ [p], some ⟨line, "", ""⟩)
    | none => (st.1, some ⟨line, "", ""⟩)
  else
    match st.2 with
    | some p => (st.1, some (projUpdate p line))
    | none => st

/-- `parseProjects` of the source. -/
def parseProjects (content : List String) : List ProjectEntry :=
  let st := content.foldl projStep ([], none)
  match st.2 with
  | some p => st.1 ++ [p]
  | none => st.1

/-- `parseCertifications` of the source. -/
def parseCertifications (content : List String) : List CertificationEntry :=
  content.foldl
    (fun acc line =>
      if decide (line.length > 5) then
        acc ++ [⟨line, "", extractYear line⟩]
      else acc) []

/-- `parseCourses` of the source. -/
def parseCourses (content : List String) : List CourseEntry :=
  content.foldl
    (fun acc line =>
      if decide (line.length > 5) then acc ++ [⟨line, ""⟩] else acc) []

/-! ### Section segmentation -/

/-- The section keyword table, in source order. -/
def sectionKeywords : List (String × List String) :=
  [("summary", ["summary", "profile", "objective", "about"]),
   ("experience", ["experience", "employment", "work history", "career",
                   "professional experience"]),
   ("education", ["education", "academic", "qualification", "degree"]),
   ("skills", ["skills", "technical skills", "competencies", "expertise"]),
   ("achievements", ["achievements", "accomplishments", "awards", "recognition"]),
   ("projects", ["projects", "portfolio", "work samples"]),
   ("certifications", ["certifications", "certificates", "licenses"]),
   ("courses", ["courses", "training", "coursework"])]

/-- `detectSectionHeader` of the source: the argument `line` is already
lower-cased by the caller; the first section (in table order) one of whose
keywords occurs in the line, provided the line is shorter than 50
characters. -/
def detectSectionHeader (line : String) : List (String × List String) → Option String
  | [] => none
  | (sec, kws) :: rest =>
    if kws.any (fun kw => containsSubstr line kw && decide (line.length < 50)) then
      some sec
    else detectSectionHeader line rest

/-- `processSectionContent` of the source: route a finished buffer to the
entry parser of its section. -/
def processSectionContent (sec : String) (content : List String)
    (r : ResumeRecord) : ResumeRecord :=
  let text := trimStr (joinSpace content)
  if sec == "summary" then { r with summary := text }
  else if sec == "experience" then { r with experience := parseExperience content }
  else if sec == "education" then { r with education := parseEducation content }
  else if sec == "skills" then { r with skills := parseSkills content }
  else if sec == "achievements" then { r with achievements := parseAchievements content }
  else if sec == "projects" then { r with projects := parseProjects content }
  else if sec == "certifications" then { r with certifications := parseCertifications content }
  else if sec == "courses" then { r with courses := parseCourses content }
  else r

/-- One loop iteration of `extractSections`.  The state is
`(currentSection, sectionContent, resumeData)`; `currentSection = ""` is the
source's initial falsy value (no current section). -/
def extractSectionsStep (st : String × List String × ResumeRecord)
    (line : String) : String × List String × ResumeRecord :=
  match detectSectionHeader (jsToLower line) sectionKeywords with
  | some sec =>
    let r' := if !(st.1 == "") && decide (st.2.1.length > 0) then
                processSectionContent st.1 st.2.1 st.2.2
              else st.2.2
    (sec, [], r')
  | none =>
    if !(st.1 == "") then (st.1, st.2.1 ++ [line], st.2.2) else st

/-- `extractSections` of the source (including the final flush). -/
def extractSections (lines : List String) (r : ResumeRecord) : ResumeRecord :=
  let st := lines.foldl extractSectionsStep ("", [], r)
  if !(st.1 == "") && decide (st.2.1.length > 0) then
    processSectionContent st.1 st.2.1 st.2.2
  else st.2.2

/-! ### Basic-info extraction -/

/-- One iteration of the contact-information loop of `extractBasicInfo`
(email, phone, LinkedIn, location — each kept only if not already set). -/
def basicStep (r : ResumeRecord) (line : String) : ResumeRecord :=
  let r1 := match emailMatch line with
    | some m => if r.email == "" then { r with email := m } else r
    | none => r
  let r2 := match phoneMatch line with
    | some m => if r1.phone == "" then { r1 with phone := m } else r1
    | none => r1
  let r3 := match linkedinMatch line with
    | some m => if r2.linkedin == "" then { r2 with linkedin := "https://" ++ m } else r2
    | none => r2
  if r3.location == "" && isLocationLine line then { r3 with location := line } else r3

/-- The role loop of `extractBasicInfo`: first role-keyword line wins, then
the loop breaks. -/
def roleScan (ls : List String) (r : ResumeRecord) : ResumeRecord :=
  match ls with
  | [] => r
  | l :: rest =>
    if isRoleLine l && r.role == "" then { r with role := l } else roleScan rest r

/-- `extractBasicInfo` of the source: name from the first line, contact
fields from the first 10 lines, role from lines 2–5. -/
def extractBasicInfo (lines : List String) (r : ResumeRecord) : ResumeRecord :=
  let r1 := match lines with
    | l :: _ => { r with name := l }
    | [] => r
  let r2 := (lines.take 10).foldl basicStep r1
  roleScan ((lines.take 5).drop 1) r2

/-! ### Data normalisation -/

/-- The array-entry filters of `cleanResumeData` share this test:
`x && x.trim().length > 0`. -/
def keepNonBlank (s : String) : Bool :=
  !(s == "") && decide ((trimStr s).length > 0)

/-- `cleanResumeData` of the source.  The source mutates the record field by
field; each placeholder test reads only the field it replaces and each filter
only its own array, so the sequential mutations are modelled as one
simultaneous record update. -/
def cleanResumeData (r : ResumeRecord) : ResumeRecord :=
  { r with
    name := if r.name == "" || trimStr r.name == "" then "Your Name" else r.name,
    email := if r.email == "" || trimStr r.email == "" then "your.email@example.com" else r.email,
    phone := if r.phone == "" || trimStr r.phone == "" then "123-456-7890" else r.phone,
    role := if r.role == "" || trimStr r.role == "" then "Professional Role" else r.role,
    location := if r.location == "" || trimStr r.location == "" then "Your City, Country" else r.location,
    skills := r.skills.filter keepNonBlank,
    languages := r.languages.filter keepNonBlank,
    experience := r.experience.filter (fun e => keepNonBlank e.title),
    education := r.education.filter (fun e => keepNonBlank e.degree),
    achievements := r.achievements.filter (fun a => keepNonBlank a.keyAchievements),
    projects := r.projects.filter (fun p => keepNonBlank p.title) }

/-! ### Top-level parsing pipeline -/

/-- `text.split('\n').map(line => line.trim()).filter(line => line.length > 0)`. -/
def extractLines (text : String) : List String :=
  ((text.data.splitOn '\n').map (fun cs => (⟨trimChars cs⟩ : String))).filter
    (fun l => decide (l.length > 0))

/-- `parseTextToStructuredData` of the source. -/
def parseTextToStructuredData (text : String) : ResumeRecord :=
  let lines := extractLines text
  cleanResumeData (extractSections lines (extractBasicInfo lines initResume))

/-- The `text/plain` dispatch of `parseResumeContent`: a string is used as
direct content exactly when it contains neither `'/'` nor `'\\'`
(`typeof` is always `'string'` in this model). -/
def treatedAsDirectContent (s : String) : Bool :=
  !(s.data.contains '/') && !(s.data.contains '\\')

/-- The text that `parseResumeContent` goes on to parse for media type
`text/plain`: the input itself, or — when it contains a slash or backslash —
the contents `fsys s` that `fs.readFile` would return for it. -/
def effectiveText (fsys : String → String) (s : String) : String :=
  if treatedAsDirectContent s then s else fsys s

/-- `parseResumeContent` of the source, specialised to `mimeType =
"text/plain"`; the file system is passed explicitly as `fsys`.  Errors are
modelled by their message strings. -/
def parseResumeContentPlain (fsys : String → String) (s : String) :
    Except String ResumeRecord :=
  let textContent := effectiveText fsys s
  if textContent == "" || (trimStr textContent).length == 0 then
    Except.error "No readable content found in the file"
  else
    Except.ok (parseTextToStructuredData textContent)

/-! ### Spec-side definitions (for the refinement statements) -/

/-- Modelled from the spec's segmenter rule: a line is a header for a table
entry when the lower-cased line contains one of the entry's keywords and the
line is shorter than 50 characters. -/
def SectionMatchesSpec (line : String) (entry : String × List String) : Prop :=
  line.length < 50 ∧ ∃ kw ∈ entry.2, kw.data <:+: (jsToLower line).data

instance (line : String) (entry : String × List String) :
    Decidable (SectionMatchesSpec line entry) := by
  unfold SectionMatchesSpec; infer_instance

/-- Scenario A input of the spec. -/
def scenarioA : String :=
  "Jane Doe\nSoftware Engineer\njane@x.com\n555-123-4567\nEDUCATION\nBachelor of Science\nMIT\n2018-2022"

/-- Invariant of experience entries stated by C9: the company-location field
is never populated, and date / accomplishment text can only come from lines
of at least 100 characters. -/
def ExpInv (e : ExperienceEntry) : Prop :=
  e.companyLocation = "" ∧ (e.date = "" ∨ 100 ≤ e.date.length) ∧
  ∀ a ∈ e.accomplishment, 100 ≤ a.length

/-! ## Theorems -/

/-- C1 (counterexample): on the Scenario A input the education entry produced
by the parser is not `{degree:"Bachelor of Science", institution:"MIT",
duration:"2018-2022", location:""}`. -/
theorem c1_counterexample :
    parseResumeContentPlain (fun _ => "") scenarioA =
      Except.ok (parseTextToStructuredData scenarioA) ∧
    (parseTextToStructuredData scenarioA).education ≠
      [⟨"Bachelor of Science", "MIT", "2018-2022", ""⟩] := by
  exact ⟨rfl, by decide⟩

/-- C1 (amended): for the Scenario A input, `parseResumeContent` returns a
record with `name="Jane Doe"`, `email="jane@x.com"`, `phone="555-123-4567"`,
and exactly one education entry `{degree:"Bachelor of Science",
institution:"2018-2022", duration:"", location:""}` — "MIT" (3 characters)
fails `isInstitution`'s length fallback while "2018-2022" passes it. -/
theorem c1_amended :
    parseResumeContentPlain (fun _ => "") scenarioA =
      Except.ok (parseTextToStructuredData scenarioA) ∧
    (parseTextToStructuredData scenarioA).name = "Jane Doe" ∧
    (parseTextToStructuredData scenarioA).email = "jane@x.com" ∧
    (parseTextToStructuredData scenarioA).phone = "555-123-4567" ∧
    (parseTextToStructuredData scenarioA).education =
      [⟨"Bachelor of Science", "2018-2022", "", ""⟩] := by
  exact ⟨rfl, by decide, by decide, by decide, by decide⟩

/-- C3 (counterexample): under a PROJECTS header the body
`["Project Alpha", "6 months", "Built a thing."]` does not produce the single
entry `{title:"Project Alpha", duration:"6 months",
description:"Built a thing."}`. -/
theorem c3_counterexample :
    parseProjects ["Project Alpha", "6 months", "Built a thing."] ≠
      [⟨"Project Alpha", "Built a thing.", "6 months"⟩] := by
  decide

/-- C3 (amended): the body `["Project Alpha", "6 months", "Built a thing."]`
produces two project entries, `{title:"Project Alpha", description:"",
duration:""}` and `{title:"Built a thing.", description:"", duration:""}`:
"6 months" (8 characters, not a date range) is discarded, and
"Built a thing." starts a fresh project because it begins with an
upper-case letter. -/
theorem c3_amended :
    parseProjects ["Project Alpha", "6 months", "Built a thing."] =
      [⟨"Project Alpha", "", ""⟩, ⟨"Built a thing.", "", ""⟩] := by
  decide

/-- C7: the skills parser splits `"Python, Go; Rust | Docker"` under a SKILLS
header into exactly `["Python","Go","Rust","Docker"]`. -/
theorem c7_skills :
    parseSkills ["Python, Go; Rust | Docker"] = ["Python", "Go", "Rust", "Docker"] ∧
    (parseTextToStructuredData "SKILLS\nPython, Go; Rust | Docker").skills =
      ["Python", "Go", "Rust", "Docker"] := by
  exact ⟨by decide, by decide⟩

/-- C2 (counterexample): for a `text/plain` input containing `'/'` the result
of `parseResumeContent` depends on the file system, so the input string is
not treated directly as the document body. -/
theorem c2_counterexample :
    parseResumeContentPlain (fun _ => "") "a/b" ≠
      parseResumeContentPlain (fun _ => "hello") "a/b" := by
  intro h
  have h1 : parseResumeContentPlain (fun _ => "") "a/b" =
      Except.error "No readable content found in the file" := rfl
  have h2 : parseResumeContentPlain (fun _ => "hello") "a/b" =
      Except.ok (parseTextToStructuredData "hello") := rfl
  rw [h1, h2] at h
  exact Except.noConfusion h

/-- C2 (amended): a `text/plain` input string is treated directly as the
document body — the result independent of the file system — exactly when it
contains neither `'/'` nor `'\\'`; strings containing either character are
instead treated as file paths and read from the file system. -/
theorem c2_amended (fs1 fs2 : String → String) (s : String)
    (h1 : s.data.contains '/' = false) (h2 : s.data.contains '\\' = false) :
    parseResumeContentPlain fs1 s = parseResumeContentPlain fs2 s := by
  unfold parseResumeContentPlain effectiveText treatedAsDirectContent
  rw [h1, h2]
  simp

/-- Witness for C2 (amended) at the concrete input `"hello"`. -/
theorem c2_amended_witness :
    ("hello" : String).data.contains '/' = false ∧
    ("hello" : String).data.contains '\\' = false ∧
    parseResumeContentPlain (fun _ => "alpha") "hello" =
      parseResumeContentPlain (fun _ => "beta") "hello" :=
  ⟨by decide, by decide,
   c2_amended (fun _ => "alpha") (fun _ => "beta") "hello" (by decide) (by decide)⟩

/-! ### Helper lemmas about trimming and line extraction (for C6) -/

theorem trimChars_eq_nil_of_allWs (l : List Char)
    (h : ∀ c ∈ l, isWsChar c = true) : trimChars l = [] := by
  unfold trimChars
  have h1 : l.dropWhile isWsChar = [] := List.dropWhile_eq_nil_iff.mpr h
  rw [h1]
  rfl

theorem allWs_of_trimChars_eq_nil (l : List Char) (h : trimChars l = []) :
    ∀ c ∈ l, isWsChar c = true := by
  unfold trimChars at h
  have h2 : (l.dropWhile isWsChar).reverse.dropWhile isWsChar = [] := by
    have := congrArg List.reverse h
    simpa using this
  have h3 := List.dropWhile_eq_nil_iff.mp h2
  have h4 : ∀ c ∈ l.dropWhile isWsChar, isWsChar c = true := by
    intro c hc
    exact h3 c (List.mem_reverse.mpr hc)
  intro c hc
  rw [← List.takeWhile_append_dropWhile (p := isWsChar) (l := l)] at hc
  rcases List.mem_append.mp hc with h5 | h5
  · exact List.mem_takeWhile_imp h5
  · exact h4 c h5

theorem allWs_intercalate (cs : List (List Char))
    (h : ∀ c ∈ cs, ∀ y ∈ c, isWsChar y = true) :
    ∀ y ∈ [('\n' : Char)].intercalate cs, isWsChar y = true := by
  induction cs with
  | nil => intro y hy; simp [List.intercalate] at hy
  | cons a t ih =>
    cases t with
    | nil =>
      intro y hy
      simp [List.intercalate] at hy
      exact h a (by simp) y hy
    | cons b t2 =>
      intro y hy
      have hrw : [('\n' : Char)].intercalate (a :: b :: t2) =
          a ++ '\n' :: [('\n' : Char)].intercalate (b :: t2) := by
        simp [List.intercalate, List.intersperse_cons_cons]
      rw [hrw] at hy
      rcases List.mem_append.mp hy with h5 | h5
      · exact h a (by simp) y h5
      · rcases List.mem_cons.mp h5 with h6 | h6
        · subst h6; rfl
        · exact ih (fun c hc => h c (by simp [hc])) y h6

theorem allWs_of_lines_trim_nil (t : List Char)
    (h : ∀ c ∈ t.splitOn '\n', trimChars c = []) :
    ∀ y ∈ t, isWsChar y = true := by
  have hrec : t = [('\n' : Char)].intercalate (t.splitOn '\n') :=
    (List.intercalate_splitOn t '\n').symm
  intro y hy
  rw [hrec] at hy
  exact allWs_intercalate _ (fun c hc => allWs_of_trimChars_eq_nil c (h c hc)) y hy

theorem trimChars_nil_of_extractLines_nil (t : String)
    (h : extractLines t = []) : trimChars t.data = [] := by
  unfold extractLines at h
  rw [List.filter_eq_nil_iff] at h
  have h2 : ∀ cs ∈ t.data.splitOn '\n', trimChars cs = [] := by
    intro cs hcs
    have h3 := h ⟨trimChars cs⟩ (List.mem_map_of_mem _ hcs)
    simp [String.length] at h3
    exact h3
  exact trimChars_eq_nil_of_allWs _ (allWs_of_lines_trim_nil _ h2)

/-- C6: whenever extraction yields no non-empty lines (in particular for the
zero-length input), `parseResumeContent` raises the empty-content error
"No readable content found in the file" and does not return a record. -/
theorem c6_empty_content (fsys : String → String) (s : String)
    (h : extractLines (effectiveText fsys s) = []) :
    parseResumeContentPlain fsys s =
      Except.error "No readable content found in the file" := by
  unfold parseResumeContentPlain
  have h1 := trimChars_nil_of_extractLines_nil _ h
  have h2 : (trimStr (effectiveText fsys s)).length = 0 := by
    simp [trimStr, String.length, h1]
  simp [h2]

/-- Witness for C6 at the zero-length input. -/
theorem c6_witness :
    extractLines (effectiveText (fun _ => "") "") = [] ∧
    parseResumeContentPlain (fun _ => "") "" =
      Except.error "No readable content found in the file" :=
  ⟨by decide, c6_empty_content (fun _ => "") "" (by decide)⟩

/-! ### Helper lemmas for the normalizer (C5, C8) -/

theorem cleanResumeData_required (r : ResumeRecord) :
    (cleanResumeData r).name ≠ "" ∧ (cleanResumeData r).email ≠ "" ∧
    (cleanResumeData r).phone ≠ "" ∧ (cleanResumeData r).role ≠ "" ∧
    (cleanResumeData r).location ≠ "" := by
  unfold cleanResumeData
  refine ⟨?_, ?_, ?_, ?_, ?_⟩ <;> dsimp only <;> split <;>
    first
      | decide
      | (rename_i h
         simp only [Bool.or_eq_true, beq_iff_eq, not_or] at h
         exact h.1)

theorem cleanScalar_idem (s pl : String)
    (hpl : (pl == "" || trimStr pl == "") = false) :
    (if ((if s == "" || trimStr s == "" then pl else s) == "" ||
         trimStr (if s == "" || trimStr s == "" then pl else s) == "") then pl
     else (if s == "" || trimStr s == "" then pl else s)) =
    (if s == "" || trimStr s == "" then pl else s) := by
  by_cases h : (s == "" || trimStr s == "") = true
  · simp [h, hpl]
  · simp only [Bool.not_eq_true] at h
    simp [h]

theorem filter_idem {α : Type} (p : α → Bool) (l : List α) :
    (l.filter p).filter p = l.filter p := by
  induction l with
  | nil => rfl
  | cons a t ih =>
    by_cases h : p a = true <;> simp [List.filter_cons, h, ih]

/-- C8: the Data Normalizer is idempotent — applying `cleanResumeData` to its
own output yields an identical record. -/
theorem c8_normalizer_idempotent (r : ResumeRecord) :
    cleanResumeData (cleanResumeData r) = cleanResumeData r := by
  unfold cleanResumeData
  dsimp only
  congr 1 <;>
    first
      | rfl
      | exact filter_idem _ _
      | exact cleanScalar_idem _ _ (by decide)

/-- Witness for C8 at a concrete record. -/
theorem c8_witness :
    cleanResumeData (cleanResumeData initResume) = cleanResumeData initResume :=
  c8_normalizer_idempotent initResume

/-- C5: whenever `parseResumeContent` returns a record, its `name`, `email`,
`phone`, `role` and `location` fields are non-empty (absent values having
been replaced by the fixed placeholders in `cleanResumeData`). -/
theorem c5_required_fields (fsys : String → String) (s : String)
    (rec : ResumeRecord)
    (h : parseResumeContentPlain fsys s = Except.ok rec) :
    rec.name ≠ "" ∧ rec.email ≠ "" ∧ rec.phone ≠ "" ∧ rec.role ≠ "" ∧
    rec.location ≠ "" := by
  unfold parseResumeContentPlain at h
  dsimp only at h
  split at h
  · exact absurd h (by simp)
  · have hrec : rec = parseTextToStructuredData (effectiveText fsys s) := by
      injection h with h2
      exact h2.symm
    rw [hrec]
    unfold parseTextToStructuredData
    exact cleanResumeData_required _

/-- Witness for C5 at the concrete input `"hello"`. -/
theorem c5_witness :
    (parseTextToStructuredData "hello").name ≠ "" ∧
    (parseTextToStructuredData "hello").email ≠ "" ∧
    (parseTextToStructuredData "hello").phone ≠ "" ∧
    (parseTextToStructuredData "hello").role ≠ "" ∧
    (parseTextToStructuredData "hello").location ≠ "" :=
  c5_required_fields (fun _ => "") "hello" (parseTextToStructuredData "hello") rfl

/-! ### Helper lemmas: no stage ever touches `languages` (C10) -/

theorem basicStep_languages (r : ResumeRecord) (line : String) :
    (basicStep r line).languages = r.languages := by
  unfold basicStep
  cases emailMatch line <;> cases phoneMatch line <;> cases linkedinMatch line <;>
    dsimp only <;> (repeat' split) <;> rfl

theorem foldl_basicStep_languages (ls : List String) :
    ∀ r : ResumeRecord, (ls.foldl basicStep r).languages = r.languages := by
  induction ls with
  | nil => intro r; rfl
  | cons a t ih =>
    intro r
    rw [List.foldl_cons, ih, basicStep_languages]

theorem roleScan_languages (ls : List String) :
    ∀ r : ResumeRecord, (roleScan ls r).languages = r.languages := by
  induction ls with
  | nil => intro r; rfl
  | cons a t ih =>
    intro r
    unfold roleScan
    split
    · rfl
    · exact ih r

theorem extractBasicInfo_languages (lines : List String) (r : ResumeRecord) :
    (extractBasicInfo lines r).languages = r.languages := by
  unfold extractBasicInfo
  cases lines <;>
    dsimp only <;> rw [roleScan_languages, foldl_basicStep_languages]

theorem processSectionContent_languages (sec : String) (content : List String)
    (r : ResumeRecord) :
    (processSectionContent sec content r).languages = r.languages := by
  unfold processSectionContent
  dsimp only
  repeat' split
  all_goals rfl

theorem extractSectionsStep_languages (st : String × List String × ResumeRecord)
    (line : String) :
    ((extractSectionsStep st line).2.2).languages = (st.2.2).languages := by
  unfold extractSectionsStep
  split
  · dsimp only
    split
    · rw [processSectionContent_languages]
    · rfl
  · split <;> rfl

theorem foldl_sectionsStep_languages (lines : List String) :
    ∀ st : String × List String × ResumeRecord,
      ((lines.foldl extractSectionsStep st).2.2).languages = (st.2.2).languages := by
  induction lines with
  | nil => intro st; rfl
  | cons a t ih =>
    intro st
    rw [List.foldl_cons, ih, extractSectionsStep_languages]

theorem extractSections_languages (lines : List String) (r : ResumeRecord) :
    (extractSections lines r).languages = r.languages := by
  unfold extractSections
  dsimp only
  split
  · rw [processSectionContent_languages, foldl_sectionsStep_languages]
  · rw [foldl_sectionsStep_languages]

/-- C10: for every input text, the `languages` field of the record returned
by the parser is the empty sequence — it starts empty, no section keyword
maps to it, and no parsing or normalisation step appends to it. -/
theorem c10_languages_empty (text : String) :
    (parseTextToStructuredData text).languages = [] := by
  unfold parseTextToStructuredData
  dsimp only
  have h1 : (extractSections (extractLines text)
      (extractBasicInfo (extractLines text) initResume)).languages = [] := by
    rw [extractSections_languages, extractBasicInfo_languages]
    rfl
  unfold cleanResumeData
  dsimp only
  rw [h1]
  rfl

/-- Witness for C10 at a concrete input. -/
theorem c10_witness : (parseTextToStructuredData "hello world").languages = [] :=
  c10_languages_empty "hello world"

/-! ### Helper lemmas for C9: minimum lengths of date-range matches -/

theorem matchYearRangeAt_min (s : List Char) (h : matchYearRangeAt s = true) :
    3 ≤ s.length := by
  match s with
  | [] => simp [matchYearRangeAt] at h
  | [a] => simp [matchYearRangeAt] at h
  | [a, b] => simp [matchYearRangeAt] at h
  | a :: b :: c :: t => simp only [List.length_cons]; omega

theorem matchWordTail_min (s : List Char) (h : matchWordTail s = true) :
    4 ≤ s.length := by
  match s with
  | [] => simp [matchWordTail] at h
  | [a] => simp [matchWordTail] at h
  | [a, b] => simp [matchWordTail] at h
  | [a, b, c] => simp [matchWordTail] at h
  | a :: b :: c :: d :: t => simp only [List.length_cons]; omega

theorem length_pos_of_not_isEmpty (l : List Char) (h : (!l.isEmpty) = true) :
    0 < l.length := by
  cases l
  · simp at h
  · simp

theorem matchWordRangeAt_min (s : List Char) (h : matchWordRangeAt s = true) :
    3 ≤ s.length := by
  unfold matchWordRangeAt at h
  dsimp only at h
  simp only [Bool.and_eq_true] at h
  obtain ⟨⟨h1, h2⟩, h3⟩ := h
  have e1 : (s.takeWhile isWordChar).length + (s.dropWhile isWordChar).length
      = s.length := by
    rw [← List.length_append, List.takeWhile_append_dropWhile]
  have e2 : ((s.dropWhile isWordChar).takeWhile isWsChar).length +
      ((s.dropWhile isWordChar).dropWhile isWsChar).length
      = (s.dropWhile isWordChar).length := by
    rw [← List.length_append, List.takeWhile_append_dropWhile]
  have p1 : 0 < (s.takeWhile isWordChar).length :=
    length_pos_of_not_isEmpty _ h1
  have p3 : 4 ≤ ((s.dropWhile isWordChar).dropWhile isWsChar).length :=
    matchWordTail_min _ h3
  omega

theorem halfSlash_min (s r : List Char) (h : halfSlash s = some r) :
    3 ≤ s.length := by
  match s with
  | [] => simp [halfSlash] at h
  | [a] => simp [halfSlash] at h
  | [a, b] =>
    rw [halfSlash] at h
    cases ha : a.isDigit <;> cases hb : b.isDigit <;>
      simp [ha, hb, slashTail, Option.orElse] at h
  | a :: b :: c :: t => simp only [List.length_cons]; omega

theorem matchSlashRangeAt_min (s : List Char) (h : matchSlashRangeAt s = true) :
    3 ≤ s.length := by
  unfold matchSlashRangeAt at h
  cases hh : halfSlash s with
  | none => rw [hh] at h; simp at h
  | some r => exact halfSlash_min s r hh

theorem scanTest_min (m : List Char → Bool)
    (hm : ∀ s, m s = true → 3 ≤ s.length) :
    ∀ l, scanTest m l = true → 3 ≤ l.length := by
  intro l
  induction l with
  | nil =>
    intro h
    unfold scanTest at h
    have := hm [] h
    simp at this
  | cons c rest ih =>
    intro h
    unfold scanTest at h
    rw [Bool.or_eq_true] at h
    rcases h with h | h
    · exact hm _ h
    · have := ih h
      simp only [List.length_cons]
      omega

theorem isDateRange_min (line : String) (h : isDateRange line = true) :
    3 ≤ line.length := by
  unfold isDateRange at h
  simp only [Bool.or_eq_true] at h
  have hlen : line.length = line.data.length := rfl
  rcases h with ((((h | h) | h) | h) | h)
  · rw [hlen]; exact scanTest_min _ matchYearRangeAt_min _ h
  · rw [hlen]; exact scanTest_min _ matchSlashRangeAt_min _ h
  · rw [hlen]; exact scanTest_min _ matchWordRangeAt_min _ h
  · have h2 := List.IsInfix.length_le (of_decide_eq_true h)
    rw [List.length_map] at h2
    simp at h2
    rw [hlen]
    omega
  · have h2 := List.IsInfix.length_le (of_decide_eq_true h)
    rw [List.length_map] at h2
    simp at h2
    rw [hlen]
    omega

/-! ### Helper lemmas for C9: the experience fold -/

theorem isCompanyName_true_of_bounds (l : String)
    (h1 : 2 < l.length) (h2 : l.length < 100) : isCompanyName l = true := by
  simp [isCompanyName]
  exact ⟨h1, h2⟩

theorem isLocation_bounds (l : String) (h : isLocation l = true) :
    3 < l.length ∧ l.length < 50 := by
  unfold isLocation at h
  simp only [Bool.and_eq_true, decide_eq_true_eq] at h
  exact ⟨h.1.1, h.1.2⟩

theorem expUpdate_inv (e : ExperienceEntry) (line : String) (h : ExpInv e) :
    ExpInv (expUpdate e line) := by
  unfold ExpInv at h
  obtain ⟨h1, h2, h3⟩ := h
  unfold expUpdate
  by_cases hc : isCompanyName line = true
  · simp only [hc, if_true]
    exact ⟨h1, h2, h3⟩
  · have hcb : ¬(2 < line.length ∧ line.length < 100) := fun hcc =>
      hc (isCompanyName_true_of_bounds line hcc.1 hcc.2)
    rw [Bool.not_eq_true] at hc
    simp only [hc, Bool.false_eq_true, if_false]
    by_cases hd : isDateRange line = true
    · simp only [hd, if_true]
      refine ⟨h1, Or.inr ?_, h3⟩
      have hmin := isDateRange_min line hd
      show 100 ≤ line.length
      omega
    · rw [Bool.not_eq_true] at hd
      simp only [hd, Bool.false_eq_true, if_false]
      by_cases hl : isLocation line = true
      · exfalso
        have := isLocation_bounds line hl
        omega
      · rw [Bool.not_eq_true] at hl
        simp only [hl, Bool.false_eq_true, if_false]
        by_cases hlen : line.length > 10
        · have hcond : decide (line.length > 10) = true := by simp [hlen]
          simp only [hcond, if_true]
          refine ⟨h1, h2, ?_⟩
          intro a ha
          rcases List.mem_append.mp ha with ha | ha
          · exact h3 a ha
          · have ha2 : a = line := by simpa using ha
            subst ha2
            omega
        · have hcond : decide (line.length > 10) = false := by simp [hlen]
          simp only [hcond, Bool.false_eq_true, if_false]
          exact ⟨h1, h2, h3⟩

theorem expFresh_inv (line : String) : ExpInv (expFresh line) := by
  refine ⟨rfl, Or.inl rfl, ?_⟩
  intro a ha
  simp [expFresh] at ha

theorem expStep_inv (st : List ExperienceEntry × Option ExperienceEntry)
    (line : String)
    (hdone : ∀ e ∈ st.1, ExpInv e)
    (hcur : ∀ e, st.2 = some e → ExpInv e) :
    (∀ e ∈ (expStep st line).1, ExpInv e) ∧
    (∀ e, (expStep st line).2 = some e → ExpInv e) := by
  unfold expStep
  split
  · cases hc : st.2 with
    | some e0 =>
      dsimp only
      constructor
      · intro e he
        rcases List.mem_append.mp he with he | he
        · exact hdone e he
        · have : e = e0 := by simpa using he
          subst this
          exact hcur e hc
      · intro e he
        have : e = expFresh line := by
          have := he
          simp at this
          exact this.symm
        subst this
        exact expFresh_inv line
    | none =>
      dsimp only
      refine ⟨hdone, ?_⟩
      intro e he
      have : e = expFresh line := by
        have := he
        simp at this
        exact this.symm
      subst this
      exact expFresh_inv line
  · cases hc : st.2 with
    | some e0 =>
      dsimp only
      refine ⟨hdone, ?_⟩
      intro e he
      have : e = expUpdate e0 line := by
        have := he
        simp at this
        exact this.symm
      subst this
      exact expUpdate_inv e0 line (hcur e0 hc)
    | none =>
      dsimp only
      exact ⟨hdone, hcur⟩

theorem expFold_inv (content : List String) :
    ∀ st, (∀ e ∈ st.1, ExpInv e) → (∀ e, st.2 = some e → ExpInv e) →
      (∀ e ∈ (content.foldl expStep st).1, ExpInv e) ∧
      (∀ e, (content.foldl expStep st).2 = some e → ExpInv e) := by
  induction content with
  | nil => intro st h1 h2; exact ⟨h1, h2⟩
  | cons a t ih =>
    intro st h1 h2
    rw [List.foldl_cons]
    have hs := expStep_inv st a h1 h2
    exact ih _ hs.1 hs.2

theorem parseExperience_inv (content : List String) :
    ∀ e ∈ parseExperience content, ExpInv e := by
  unfold parseExperience
  dsimp only
  have h := expFold_inv content ([], none)
    (by intro e he; simp at he) (by intro e he; simp at he)
  cases hc : (content.foldl expStep ([], none)).2 with
  | some e0 =>
    intro e he
    rcases List.mem_append.mp he with he | he
    · exact h.1 e he
    · have : e = e0 := by simpa using he
      subst this
      exact h.2 e hc
  | none =>
    intro e he
    exact h.1 e he

theorem expFold_noTitle (ls : List String)
    (h : ∀ l ∈ ls, isJobTitle l = false) :
    ∀ (done : List ExperienceEntry) (e : ExperienceEntry),
      ls.foldl expStep (done, some e) = (done, some (ls.foldl expUpdate e)) := by
  induction ls with
  | nil => intro done e; rfl
  | cons a t ih =>
    intro done e
    have ha : isJobTitle a = false := h a (by simp)
    rw [List.foldl_cons, List.foldl_cons]
    have hstep : expStep (done, some e) a = (done, some (expUpdate e a)) := by
      unfold expStep
      simp [ha]
    rw [hstep]
    exact ih (fun l hl => h l (by simp [hl])) done (expUpdate e a)

theorem expUpdate_companyName (e : ExperienceEntry) (line : String) :
    (expUpdate e line).companyName =
      if isCompanyName line then line else e.companyName := by
  unfold expUpdate
  by_cases hc : isCompanyName line = true
  · simp [hc]
  · rw [Bool.not_eq_true] at hc
    simp only [hc, Bool.false_eq_true, if_false]
    repeat' split
    all_goals rfl

theorem foldl_expUpdate_companyName (ls : List String) :
    ∀ e : ExperienceEntry,
      (ls.foldl expUpdate e).companyName =
        ls.foldl (fun acc l => if isCompanyName l then l else acc) e.companyName := by
  induction ls with
  | nil => intro e; rfl
  | cons a t ih =>
    intro e
    rw [List.foldl_cons, List.foldl_cons, ih, expUpdate_companyName]

theorem foldl_choice_getLastD (p : String → Bool) (ls : List String) :
    ∀ d : String,
      ls.foldl (fun acc l => if p l then l else acc) d = (ls.filter p).getLastD d := by
  induction ls with
  | nil => intro d; rfl
  | cons a t ih =>
    intro d
    rw [List.foldl_cons]
    by_cases h : p a = true
    · simp only [h, if_true, List.filter_cons, List.getLastD_cons, ih]
    · rw [Bool.not_eq_true] at h
      simp only [h, Bool.false_eq_true, if_false, List.filter_cons, ih]

/-- C9: every entry produced by `parseExperience` has an empty
`companyLocation` (the `isLocation` branch is unreachable after
`isCompanyName` and `isDateRange` have rejected a line), its `date` and its
accomplishment lines can only come from lines of length at least 100, and —
for a single-entry body with no further title lines — `companyName` holds
the last non-title line whose length lies strictly between 2 and 100. -/
theorem c9_experience :
    (∀ content : List String, ∀ e ∈ parseExperience content, ExpInv e) ∧
    (∀ (t : String) (ls : List String), isJobTitle t = true →
      (∀ l ∈ ls, isJobTitle l = false) →
      ∀ e ∈ parseExperience (t :: ls),
        e.companyName = (ls.filter (fun l => isCompanyName l)).getLastD "") := by
  constructor
  · exact parseExperience_inv
  · intro t ls ht hls e he
    unfold parseExperience at he
    dsimp only at he
    rw [List.foldl_cons] at he
    have hstep : expStep ([], none) t = ([], some (expFresh t)) := by
      unfold expStep
      simp [ht]
    rw [hstep, expFold_noTitle ls hls [] (expFresh t)] at he
    have he2 : e = ls.foldl expUpdate (expFresh t) := by simpa using he
    subst he2
    rw [foldl_expUpdate_companyName, foldl_choice_getLastD]
    rfl

/-- Witness for C9 at a concrete experience body: in
`["Senior Engineer", "acme corp", "beta llc"]` the last company-sized line
wins and `companyLocation` stays empty. -/
theorem c9_witness :
    ExpInv ⟨"Senior Engineer", "beta llc", "", "", []⟩ ∧
    ExperienceEntry.companyName ⟨"Senior Engineer", "beta llc", "", "", []⟩ =
      (["acme corp", "beta llc"].filter (fun l => isCompanyName l)).getLastD "" :=
  ⟨c9_experience.1 ["Senior Engineer", "acme corp", "beta llc"]
      ⟨"Senior Engineer", "beta llc", "", "", []⟩ (by decide),
   c9_experience.2 "Senior Engineer" ["acme corp", "beta llc"] (by decide)
      (by decide) ⟨"Senior Engineer", "beta llc", "", "", []⟩ (by decide)⟩

/-! ### Helper lemmas for C4: header detection and the segmenter step -/

theorem jsToLower_length (s : String) : (jsToLower s).length = s.length := by
  show (s.data.map Char.toLower).length = s.data.length
  simp

theorem sectionHit_iff (l : String) (kws : List String) :
    (kws.any fun kw => containsSubstr l kw && decide (l.length < 50)) = true ↔
      (l.length < 50 ∧ ∃ kw ∈ kws, kw.data <:+: l.data) := by
  simp only [List.any_eq_true, Bool.and_eq_true, containsSubstr, decide_eq_true_eq]
  constructor
  · rintro ⟨kw, hkw, hc, hl⟩
    exact ⟨hl, kw, hkw, hc⟩
  · rintro ⟨hl, kw, hkw, hc⟩
    exact ⟨kw, hkw, hc, hl⟩

theorem detect_isSome_iff (l : String) (table : List (String × List String)) :
    (detectSectionHeader l table).isSome = true ↔
      ∃ e ∈ table, l.length < 50 ∧ ∃ kw ∈ e.2, kw.data <:+: l.data := by
  induction table with
  | nil => simp [detectSectionHeader]
  | cons a t ih =>
    obtain ⟨sec, kws⟩ := a
    unfold detectSectionHeader
    split
    · rename_i h
      simp only [Option.isSome_some, true_iff]
      exact ⟨(sec, kws), by simp, (sectionHit_iff l kws).mp h⟩
    · rename_i h
      rw [ih]
      constructor
      · rintro ⟨e, he, hp⟩
        exact ⟨e, by simp [he], hp⟩
      · rintro ⟨e, he, hp⟩
        rcases List.mem_cons.mp he with he2 | he2
        · subst he2
          exact absurd ((sectionHit_iff l kws).mpr hp) (by simpa using h)
        · exact ⟨e, he2, hp⟩

theorem detect_first (l : String) (table : List (String × List String)) :
    ∀ s : String, detectSectionHeader l table = some s →
      ∃ pre e post, table = pre ++ e :: post ∧ e.1 = s ∧
        (l.length < 50 ∧ ∃ kw ∈ e.2, kw.data <:+: l.data) ∧
        ∀ e' ∈ pre, ¬(l.length < 50 ∧ ∃ kw ∈ e'.2, kw.data <:+: l.data) := by
  induction table with
  | nil => intro s h; simp [detectSectionHeader] at h
  | cons a t ih =>
    intro s h
    obtain ⟨sec, kws⟩ := a
    unfold detectSectionHeader at h
    split at h
    · rename_i hhit
      have hs : sec = s := by simpa using h
      subst hs
      exact ⟨[], (sec, kws), t, by simp, rfl, (sectionHit_iff l kws).mp hhit, by simp⟩
    · rename_i hmiss
      obtain ⟨pre, e, post, h1, h2, h3, h4⟩ := ih s h
      refine ⟨(sec, kws) :: pre, e, post, by simp [h1], h2, h3, ?_⟩
      intro e' he'
      rcases List.mem_cons.mp he' with he2 | he2
      · subst he2
        intro hcon
        exact hmiss ((sectionHit_iff l kws).mpr hcon)
      · exact h4 e' he2

theorem sectionMatches_iff (line : String) (e : String × List String) :
    ((jsToLower line).length < 50 ∧
      ∃ kw ∈ e.2, kw.data <:+: (jsToLower line).data) ↔
      SectionMatchesSpec line e := by
  unfold SectionMatchesSpec
  rw [jsToLower_length]

/-- C4: a line is classified as a section header exactly when the lower-cased
line contains some keyword of some section's table and the line's length is
under 50 characters; on a header the segmenter step flushes the buffer to
the entry parser of the current section (a no-op when there is no current
section — modelled by `""` — or the buffer is empty), makes the matched
section current and resets the buffer; the first section in the table order
summary, experience, education, skills, achievements, projects,
certifications, courses wins; and on a non-header line the buffer grows only
under a current section. -/
theorem c4_segmenter :
    (∀ line : String,
      ((detectSectionHeader (jsToLower line) sectionKeywords).isSome = true ↔
        ∃ e ∈ sectionKeywords, SectionMatchesSpec line e)) ∧
    (∀ line s : String,
      detectSectionHeader (jsToLower line) sectionKeywords = some s →
      ∃ pre e post, sectionKeywords = pre ++ e :: post ∧ e.1 = s ∧
        SectionMatchesSpec line e ∧ ∀ e' ∈ pre, ¬SectionMatchesSpec line e') ∧
    (∀ (line s cs : String) (buf : List String) (r : ResumeRecord),
      detectSectionHeader (jsToLower line) sectionKeywords = some s →
      extractSectionsStep (cs, buf, r) line =
        (s, [], if cs ≠ "" ∧ buf ≠ [] then processSectionContent cs buf r else r)) ∧
    (∀ (line cs : String) (buf : List String) (r : ResumeRecord),
      detectSectionHeader (jsToLower line) sectionKeywords = none →
      extractSectionsStep (cs, buf, r) line =
        (cs, if cs ≠ "" then buf ++ [line] else buf, r)) := by
  refine ⟨?_, ?_, ?_, ?_⟩
  · intro line
    rw [detect_isSome_iff]
    constructor
    · rintro ⟨e, he, hp⟩
      exact ⟨e, he, (sectionMatches_iff line e).mp hp⟩
    · rintro ⟨e, he, hp⟩
      exact ⟨e, he, (sectionMatches_iff line e).mpr hp⟩
  · intro line s h
    obtain ⟨pre, e, post, h1, h2, h3, h4⟩ := detect_first (jsToLower line) sectionKeywords s h
    exact ⟨pre, e, post, h1, h2, (sectionMatches_iff line e).mp h3,
      fun e' he' hc => h4 e' he' ((sectionMatches_iff line e').mpr hc)⟩
  · intro line s cs buf r h
    unfold extractSectionsStep
    rw [h]
    dsimp only
    have hiff : ((!(cs == "") && decide (buf.length > 0)) = true) ↔
        (cs ≠ "" ∧ buf ≠ []) := by
      simp [List.length_pos]
    by_cases hc : cs ≠ "" ∧ buf ≠ []
    · rw [if_pos (hiff.mpr hc), if_pos hc]
    · rw [if_neg (fun hb => hc (hiff.mp hb)), if_neg hc]
  · intro line cs buf r h
    unfold extractSectionsStep
    rw [h]
    dsimp only
    have hiff : ((!(cs == "")) = true) ↔ cs ≠ "" := by simp
    by_cases hc : cs ≠ ""
    · rw [if_pos (hiff.mpr hc), if_pos hc]
    · rw [if_neg (fun hb => hc (hiff.mp hb)), if_neg hc]

/-- Witness for C4 at the concrete header line `"EDUCATION"` with an empty
segmenter state. -/
theorem c4_witness :
    extractSectionsStep ("", [], initResume) "EDUCATION" =
      ("education", [], initResume) := by
  have h := c4_segmenter.2.2.1 "EDUCATION" "education" "" [] initResume (by decide)
  simpa using h
